import Mathlib

/-!
Shallow embedding of the arthos-app stock-analytics core
(`app/services/stock_service.py`, `app/services/cache_service.py`,
`app/services/fmp_service.py`, `app/services/ticker_validator.py`,
`app/services/portfolio_service.py`).

Conventions of the embedding:
* Prices are exact rationals (`ℚ`); the one real-valued quantity is the
  standard deviation (pandas `Series.std`, a square root), modelled in `ℝ`.
  pandas' NaN — produced by `ddof = 1` on fewer than two samples and then
  propagated by arithmetic — is modelled as `none` of an `Option`.
* Timestamps are integer numbers of hours (`datetime.now()` differences in
  the source are compared against `timedelta(hours=24)`; every claim speaks
  at whole-hour granularity).
* A pandas `DataFrame` of daily bars is a `List Bar`, ordered as the frame's
  rows are ordered; `df['Close']` is the list of `vclose` fields.
* Effectful functions (database-backed cache, portfolio tables) take the
  store as an explicit argument and return the updated store.
* The network fetch is an oracle argument (`Except String Series`): the
  orchestrator is quantified over every possible fetch outcome.
-/

namespace Arthos

/-- One daily OHLC bar (a row of the pandas DataFrame).  Dates are modelled
as integers (day ordinals); prices as rationals. -/
structure Bar where
  date : ℤ
  vopen : ℚ
  vhigh : ℚ
  vlow : ℚ
  vclose : ℚ
  deriving Repr, DecidableEq

/-- A price series: the rows of the DataFrame in row order. -/
abbrev Series := List Bar

/-- `df['Close']`: the closing prices of a series, in row order. -/
def closes (data : Series) : List ℚ := data.map Bar.vclose

/-- `df.tail(n)`: the last `n` elements of a list (all of it when `n` is
at least the length). -/
def takeLast {α : Type} (n : ℕ) (l : List α) : List α := l.drop (l.length - n)

/-- pandas `Series.mean()`: arithmetic mean.  (On an empty series pandas
yields NaN; Lean's total `/` yields `0`.  All claims about means are stated
for nonempty windows.) -/
def mean (xs : List ℚ) : ℚ := xs.sum / xs.length

/-- `calculate_sma` (stock_service.py:38-52): mean of the last `window`
closes; if the series has fewer than `window` rows the whole series is
used. -/
def calculate_sma (data : Series) (window : ℕ) : ℚ :=
  let w := if data.length < window then data.length else window
  mean (takeLast w (closes data))

/-- pandas sample variance (`ddof = 1`): `Σ (x - mean)² / (n - 1)`, which
is defined only when at least two samples exist — on zero or one samples
pandas yields NaN, modelled as `none`.  With two or more samples the
arithmetic is exact, so a constant window has variance exactly `0`. -/
def sampleVar (xs : List ℚ) : Option ℚ :=
  if xs.length ≤ 1 then none
  else some (((xs.map (fun x => (x - mean xs) ^ 2)).sum) / ((xs.length : ℚ) - 1))

/-- pandas `Series.std()`: the square root of the sample variance; NaN
(`none`) below two samples. -/
noncomputable def stdDev (xs : List ℚ) : Option ℝ :=
  (sampleVar xs).map (fun v => Real.sqrt (v : ℝ))

/-- `data['Close'].iloc[-1]`: the last closing price.  (The source raises on
an empty frame; claims are stated for nonempty series.) -/
def lastClose (data : Series) : ℚ := (closes data).getLastD 0

/-- `calculate_devstep` (stock_service.py:55-80): number of standard
deviations the current price is from the 50-day SMA, with the window
shrunk to the series length when fewer than 50 rows exist, and `0.0`
returned when the standard deviation is zero.  `none` models a NaN result:
on a window of fewer than two closes `std_dev` is NaN, the `std_dev == 0`
comparison is false (every comparison against NaN is), and the division
propagates NaN. -/
noncomputable def calculate_devstep (data : Series) (sma_50 : ℚ) : Option ℝ :=
  let window := if data.length < 50 then data.length else 50
  let recent_prices := takeLast window (closes data)
  let current_price := lastClose data
  match stdDev recent_prices with
  | none => none
  | some std_dev =>
    if std_dev = 0 then some 0
    else some (((current_price : ℝ) - (sma_50 : ℝ)) / std_dev)

/-- `calculate_signal` (stock_service.py:83-103): classify a devstep value
into one of five labels.  Polymorphic over the ordered field so that it can
be applied to the exact `ℚ` inputs of the spec's boundary cases as well as
to the `ℝ`-valued devstep of the pipeline. -/
def calculate_signal {α : Type} [LinearOrderedField α] (devstep : α) : String :=
  if devstep < -2 then "Extreme Oversold"
  else if devstep < -1 then "Oversold"
  else if devstep ≤ 1 then "Neutral"
  else if devstep ≤ 2 then "Overbought"
  else "Extreme Overbought"

/-! ## String canonicalization

Python's `str.upper()` / `str.strip()` are embedded as character-list maps
(uppercasing each character, trimming whitespace from both ends), which is
their behavior on the ASCII ticker strings this system handles. -/

/-- Python `str.upper()`: uppercase every character. -/
def strUpper (s : String) : String := ⟨s.data.map Char.toUpper⟩

/-- Python `str.strip()`: drop whitespace from both ends. -/
def strTrim (s : String) : String :=
  ⟨((s.data.dropWhile Char.isWhitespace).reverse.dropWhile Char.isWhitespace).reverse⟩

/-! ## Time series cache (`cache_service.py`)

The `stock_cache` table keys entries by uppercase ticker (primary key), so
the store is a finite map from key to entry; it is modelled as an
association list whose operations mirror `SELECT ... WHERE ticker = key`,
`DELETE`, and upsert.  The JSON (de)serialization of the DataFrame
(`to_dict(orient='index')` / `json.dumps` / `json.loads` /
`pd.DataFrame(...).T`) is value-preserving on well-formed payloads; a stored
payload is therefore either the serialized series or a corrupt blob that
fails to deserialize. -/

/-- The serialized `data` column of a cache row: either a well-formed JSON
serialization of a series, or a corrupt payload on which
`json.loads`/DataFrame reconstruction raises. -/
inductive CachePayload where
  | wellFormed (s : Series) : CachePayload
  | corrupt : CachePayload
  deriving Repr, DecidableEq

/-- Serialization of a DataFrame into the cache's `data` column
(value-preserving JSON round trip). -/
def serializeSeries (s : Series) : CachePayload := .wellFormed s

/-- Deserialization of a stored payload; `none` models the
`json.JSONDecodeError`/`KeyError`/`ValueError` branch of the source. -/
def deserializePayload : CachePayload → Option Series
  | .wellFormed s => some s
  | .corrupt => none

/-- One row of the `stock_cache` table. -/
structure CacheEntry where
  data : CachePayload
  cache_timestamp : ℤ
  deriving Repr, DecidableEq

/-- The cache store: rows keyed by uppercase ticker (the primary key). -/
abbrev Cache := List (String × CacheEntry)

/-- `SELECT ... WHERE ticker = key ... .first()` over the store. -/
def cacheLookup (st : Cache) (key : String) : Option CacheEntry :=
  match st.find? (fun p => p.1 = key) with
  | some p => some p.2
  | none => none

/-- `session.delete` of the row with the given primary key. -/
def cacheErase (st : Cache) (key : String) : Cache :=
  st.filter (fun p => p.1 ≠ key)

/-- `CACHE_EXPIRY_HOURS` (cache_service.py:11). -/
abbrev CACHE_EXPIRY_HOURS : ℤ := 24

/-- `get_cached_data` (cache_service.py:14-50): look up the uppercased
ticker; on an entry older than 24 hours delete it and miss; on a payload
that fails to deserialize delete it and miss; otherwise hit with the stored
series and timestamp.  Total: no error ever escapes to the caller.  Returns
the result together with the updated store. -/
def get_cached_data (st : Cache) (ticker : String) (now : ℤ) :
    Option (Series × ℤ) × Cache :=
  let key := strUpper ticker
  match cacheLookup st key with
  | none => (none, st)
  | some entry =>
    if now - entry.cache_timestamp > CACHE_EXPIRY_HOURS then
      (none, cacheErase st key)
    else
      match deserializePayload entry.data with
      | some df => (some (df, entry.cache_timestamp), st)
      | none => (none, cacheErase st key)

/-- `set_cached_data` (cache_service.py:53-85): upsert under the uppercased
ticker, stamping the current time. -/
def set_cached_data (st : Cache) (ticker : String) (data : Series) (now : ℤ) :
    Cache :=
  let key := strUpper ticker
  let entry : CacheEntry := { data := serializeSeries data, cache_timestamp := now }
  if (cacheLookup st key).isSome then
    st.map (fun p => if p.1 = key then (key, entry) else p)
  else
    st ++ [(key, entry)]

/-! ## Metrics orchestrator (`stock_service.py:106-169`,
`fmp_service.py:169-241`)

`fmp_cache_service.py` is not part of the sources, but per spec §4.1 (and
the repository's `tests/test_fmp_cache_service.py`) it implements exactly
the same contract as `cache_service.py` over its own table, so the same
`get_cached_data`/`set_cached_data` model is used for both provider
namespaces.  The upstream fetch is passed in as an oracle. -/

/-- The metrics payload assembled by the orchestrator
(stock_service.py:141-168 / fmp_service.py:213-241). -/
structure StockMetrics where
  ticker : String
  sma_50 : ℚ
  sma_200 : ℚ
  devstep : Option ℝ
  signal : String
  current_price : ℚ
  data_points : ℕ
  cached : Bool
  cache_timestamp : Option ℤ

/-- `round(x, 2)` on prices.  (Python rounds half-to-even; Mathlib's `round`
rounds half-up.  The two differ only at exact half-ties, which no claim
touches.) -/
def round2 (q : ℚ) : ℚ := (round (q * 100) : ℤ) / 100

/-- `round(x, 4)` on the real-valued devstep. -/
noncomputable def round4 (x : ℝ) : ℝ := ((round (x * 10000) : ℤ) : ℝ) / 10000

/-- `calculate_signal` applied to the possibly-NaN devstep float: every
comparison against NaN is false, so the source's elif chain falls through
to its final `else` branch on a NaN input. -/
noncomputable def signalOfDevstep (d : Option ℝ) : String :=
  match d with
  | none => "Extreme Overbought"
  | some x => calculate_signal x

/-- The metric-computation tail shared by `get_stock_metrics` and
`get_fmp_stock_metrics`: SMAs, devstep, signal, current price, rounding,
and the `cached`/`cache_timestamp` bookkeeping.  (`round(NaN, 4)` is NaN,
hence the `Option.map`.) -/
noncomputable def computeMetrics (ticker : String) (data : Series)
    (cached : Bool) (ts : Option ℤ) : StockMetrics :=
  let sma_50 := calculate_sma data 50
  let sma_200 := calculate_sma data 200
  let devstep := calculate_devstep data sma_50
  let signal := signalOfDevstep devstep
  let current_price := lastClose data
  { ticker := strUpper ticker
    sma_50 := round2 sma_50
    sma_200 := round2 sma_200
    devstep := devstep.map round4
    signal := signal
    current_price := round2 current_price
    data_points := data.length
    cached := cached
    cache_timestamp := if cached then ts else none }

/-- `get_stock_metrics` (stock_service.py:106-169): try the cache; on a hit
compute metrics from the cached series with `cached = True`; on a miss run
the fetch, write through on success, and let a fetch failure propagate.
`fetchResult` is the outcome `fetch_stock_data(ticker)` would have. -/
noncomputable def get_stock_metrics (fetchResult : Except String Series)
    (st : Cache) (ticker : String) (now : ℤ) :
    Except String StockMetrics × Cache :=
  match get_cached_data st ticker now with
  | (some (data, ts), st1) => (.ok (computeMetrics ticker data true (some ts)), st1)
  | (none, st1) =>
    match fetchResult with
    | .ok data => (.ok (computeMetrics ticker data false none),
                   set_cached_data st1 ticker data now)
    | .error e => (.error ("Error fetching data for " ++ ticker ++ ": " ++ e), st1)

/-- `get_fmp_stock_metrics` (fmp_service.py:169-241): identical control flow
to `get_stock_metrics`, with the fetch failure re-raised as
`"Failed to fetch data and no cache available: ..."` (fmp_service.py:208-211). -/
noncomputable def get_fmp_stock_metrics (fetchResult : Except String Series)
    (st : Cache) (ticker : String) (now : ℤ) :
    Except String StockMetrics × Cache :=
  match get_cached_data st ticker now with
  | (some (data, ts), st1) => (.ok (computeMetrics ticker data true (some ts)), st1)
  | (none, st1) =>
    match fetchResult with
    | .ok data => (.ok (computeMetrics ticker data false none),
                   set_cached_data st1 ticker data now)
    | .error e => (.error ("Failed to fetch data and no cache available: " ++ e), st1)

/-- One element of the list returned by the batch variant: either a metrics
payload or a `{"ticker": ..., "error": ...}` entry. -/
inductive BatchResult where
  | metrics (m : StockMetrics) : BatchResult
  | errorEntry (ticker : String) (error : String) : BatchResult

/-- `get_fmp_multiple_stock_metrics` (fmp_service.py:244-271): per input
ticker, strip and uppercase; skip it entirely when the result is empty;
otherwise run the single-ticker flow, appending its metrics on success and
a `{ticker, error}` entry on failure.  The cache store is threaded through
the loop; `fetch` gives each ticker's fetch outcome. -/
noncomputable def get_fmp_multiple_stock_metrics
    (fetch : String → Except String Series) (st : Cache)
    (tickers : List String) (now : ℤ) : List BatchResult × Cache :=
  match tickers with
  | [] => ([], st)
  | t :: ts =>
    let t1 := strUpper (strTrim t)
    if t1 = "" then get_fmp_multiple_stock_metrics fetch st ts now
    else
      match get_fmp_stock_metrics (fetch t1) st t1 now with
      | (.ok m, st1) =>
        let rest := get_fmp_multiple_stock_metrics fetch st1 ts now
        (.metrics m :: rest.1, rest.2)
      | (.error e, st1) =>
        let rest := get_fmp_multiple_stock_metrics fetch st1 ts now
        (.errorEntry t1 e :: rest.1, rest.2)

/-! ## Ticker validation (`ticker_validator.py`) -/

/-- Character class `[A-Z0-9]` of the ticker regex. -/
def isUpperAlnum (c : Char) : Bool :=
  ('A' ≤ c && c ≤ 'Z') || ('0' ≤ c && c ≤ '9')

/-- Split a character list at every `'.'` (the way the regex
`^[A-Z0-9]{1,5}(\.[A-Z0-9]{1,5})?$` factors a candidate into dot-separated
parts). -/
def splitDots : List Char → List (List Char)
  | [] => [[]]
  | c :: rest =>
    let ps := splitDots rest
    if c = '.' then [] :: ps
    else
      match ps with
      | [] => [[c]]
      | p :: pt => (c :: p) :: pt

/-- One dot-free part matches `[A-Z0-9]{1,5}`. -/
def tickerPart (p : List Char) : Bool :=
  decide (1 ≤ p.length) && decide (p.length ≤ 5) && p.all isUpperAlnum

/-- `re.match(r'^[A-Z0-9]{1,5}(\.[A-Z0-9]{1,5})?$', s)`: one part, or two
parts separated by a single dot. -/
def tickerRegexMatch (s : String) : Bool :=
  match splitDots s.data with
  | [a] => tickerPart a
  | [a, b] => tickerPart a && tickerPart b
  | _ => false

/-- `validate_ticker_format` (ticker_validator.py:6-31): reject empty or
all-whitespace input, then match the stripped, uppercased candidate against
the ticker regex. -/
def validate_ticker_format (ticker : String) : Bool :=
  if strTrim ticker = "" then false
  else tickerRegexMatch (strUpper (strTrim ticker))

/-- `validate_ticker_list` (ticker_validator.py:34-57): strip and uppercase
each entry, skip blanks, and partition the rest into format-valid and
format-invalid tickers, preserving order. -/
def validate_ticker_list (tickers : List String) : List String × List String :=
  match tickers with
  | [] => ([], [])
  | t :: ts =>
    let t1 := strUpper (strTrim t)
    let rest := validate_ticker_list ts
    if t1 = "" then rest
    else if validate_ticker_format t1 then (t1 :: rest.1, rest.2)
    else (rest.1, t1 :: rest.2)

/-! ## Portfolio service (`portfolio_service.py`, `models/portfolio.py`)

`portfolio` rows are keyed by UUID (modelled as `ℕ`); `portfolio_stocks`
rows have composite primary key `(portfolio_id, ticker)`. -/

/-- A row of the `portfolio` table. -/
structure PortfolioRec where
  portfolio_id : ℕ
  portfolio_name : String
  date_added : ℤ
  date_modified : ℤ
  deriving Repr, DecidableEq

/-- A row of the `portfolio_stocks` table. -/
structure PortfolioStockRec where
  portfolio_id : ℕ
  ticker : String
  date_added : ℤ
  deriving Repr, DecidableEq

/-- The database state the portfolio service operates on. -/
structure DbState where
  portfolios : List PortfolioRec
  portfolio_stocks : List PortfolioStockRec
  deriving Repr, DecidableEq

/-- `session.get(Portfolio, portfolio_id) is not None`. -/
def portfolioExists (st : DbState) (pid : ℕ) : Bool :=
  st.portfolios.any (fun p => p.portfolio_id = pid)

/-- The membership query of portfolio_service.py:179-183: does a
`portfolio_stocks` row for `(pid, ticker)` exist (pending inserts
included — the session autoflushes before the query)? -/
def hasStock (stocks : List PortfolioStockRec) (pid : ℕ) (ticker : String) : Bool :=
  stocks.any (fun m => m.portfolio_id = pid && m.ticker = ticker)

/-- `date_modified = datetime.now()` on the portfolio row. -/
def touchPortfolio (ps : List PortfolioRec) (pid : ℕ) (now : ℤ) : List PortfolioRec :=
  ps.map (fun p => if p.portfolio_id = pid then { p with date_modified := now } else p)

/-- The `for ticker in valid_tickers` loop of portfolio_service.py:175-193:
uppercase the ticker, skip it when a membership row already exists
(earlier pending inserts of this very loop included), otherwise add the row.
Returns the final `portfolio_stocks` table and the list of added rows in
insertion order. -/
def addStocksLoop (pid : ℕ) (now : ℤ) (stocks : List PortfolioStockRec) :
    List String → List PortfolioStockRec × List PortfolioStockRec
  | [] => (stocks, [])
  | t :: ts =>
    let t1 := strUpper t
    if hasStock stocks pid t1 then addStocksLoop pid now stocks ts
    else
      let m : PortfolioStockRec := { portfolio_id := pid, ticker := t1, date_added := now }
      let rest := addStocksLoop pid now (stocks ++ [m]) ts
      (rest.1, m :: rest.2)

/-- `add_stocks_to_portfolio` (portfolio_service.py:146-205): require the
portfolio to exist; validate every ticker's format and raise — touching
nothing — when any is invalid; return `[]` at once when no valid tickers
remain; otherwise insert a membership row per not-yet-present ticker,
touch the portfolio's `date_modified`, and return the newly created rows. -/
def add_stocks_to_portfolio (st : DbState) (pid : ℕ) (tickers : List String)
    (now : ℤ) : Except String (List PortfolioStockRec) × DbState :=
  if ¬ portfolioExists st pid then
    (.error "Portfolio not found", st)
  else
    let vi := validate_ticker_list tickers
    if vi.2 ≠ [] then
      (.error ("Invalid ticker format(s): " ++ String.intercalate ", " vi.2), st)
    else if vi.1 = [] then
      (.ok [], st)
    else
      let res := addStocksLoop pid now st.portfolio_stocks vi.1
      (.ok res.2,
       { portfolios := touchPortfolio st.portfolios pid now
         portfolio_stocks := res.1 })

/-! ## FMP provider fetcher (`fmp_service.py:20-166`)

The claims about the fetcher concern its normalization tail
(fmp_service.py:105-156): case-insensitive column renaming, date indexing,
ascending sort, and the close-presence / nonemptiness checks.  The HTTP
transport (status handling, fmp_service.py:57-73) is outside the claims;
the oracle below is the decoded JSON body of a successful HTTP response.
A parsed `pd.DataFrame(...)` is a column-name list plus the rows. -/

/-- Python `str.lower()`: lowercase every character. -/
def strLower (s : String) : String := ⟨s.data.map Char.toLower⟩

/-- Python's `sub in s` substring test, on character lists. -/
def listContainsSub (needle : List Char) : List Char → Bool
  | [] => needle.isEmpty
  | c :: rest => needle.isPrefixOf (c :: rest) || listContainsSub needle rest

/-- `sub in s` for strings. -/
def strContainsSub (s sub : String) : Bool := listContainsSub sub.data s.data

/-- A parsed upstream data frame: the column names of the JSON records plus
the rows (each row's per-column values collected into a `Bar`; a field of a
row is meaningful exactly when its column is listed). -/
structure RawFrame where
  columns : List String
  rows : List Bar
  deriving Repr, DecidableEq

/-- The decoded JSON body of an FMP response: a bare list of records
(new API format), an object (old format, possibly carrying
`"Error Message"` or `"historical"`), or something else entirely. -/
inductive FmpResponse where
  | jsonList (frame : RawFrame) : FmpResponse
  | jsonDict (errorMessage : Option String) (historical : Option RawFrame) : FmpResponse
  | otherShape : FmpResponse
  deriving Repr, DecidableEq

/-- The column-mapping loop of fmp_service.py:110-124: rename recognized
names (matched case-insensitively) onto the canonical bar fields. -/
def renameColumn (c : String) : String :=
  let cl := strLower c
  if cl = "date" ∨ cl = "datetime" then "Date"
  else if cl = "close" then "Close"
  else if cl = "open" then "Open"
  else if cl = "high" then "High"
  else if cl = "low" then "Low"
  else if cl = "volume" then "Volume"
  else c

/-- fmp_service.py:131-143: after renaming, a date index exists when a
`Date` column is present, or failing that when some column name contains
`date` or `time` (case-insensitively). -/
def hasDateIndexColumn (cols : List String) : Bool :=
  cols.contains "Date" ||
    cols.any (fun c => strContainsSub (strLower c) "date" || strContainsSub (strLower c) "time")

/-- Insert a bar into a date-sorted list, after any earlier-dated bars and
before strictly later-dated ones. -/
def insertByDate (b : Bar) : List Bar → List Bar
  | [] => [b]
  | x :: xs => if x.date < b.date then x :: insertByDate b xs else b :: x :: xs

/-- `df.sort_index()` on a date-indexed frame: stable ascending sort of the
rows by date (insertion sort). -/
def sortByDate : List Bar → List Bar
  | [] => []
  | b :: rest => insertByDate b (sortByDate rest)

/-- The normalization tail of `fetch_fmp_stock_data`
(fmp_service.py:105-156): rename columns, sort by the date index when one
exists (with no date-like column the frame keeps its default range index,
which `sort_index` leaves in the original order), then reject a frame
without a `Close` column and an empty frame. -/
def normalizeFmpFrame (ticker : String) (f : RawFrame) : Except String RawFrame :=
  let cols := f.columns.map renameColumn
  let rows := if hasDateIndexColumn cols then sortByDate f.rows else f.rows
  if ¬ cols.contains "Close" then
    .error ("Close price data not found for ticker: " ++ ticker)
  else if rows.isEmpty then
    .error ("No data found for ticker: " ++ ticker)
  else
    .ok { columns := cols, rows := rows }

/-- `fetch_fmp_stock_data` (fmp_service.py:20-166) from the decoded JSON
body onward: fail without a configured API key; reject an empty list body,
an object carrying `"Error Message"`, an object without nonempty
`"historical"`, and any non-list non-object body; then normalize. -/
def fetch_fmp_stock_data (apiKeyConfigured : Bool) (resp : FmpResponse)
    (ticker : String) : Except String RawFrame :=
  if ¬ apiKeyConfigured then
    .error "FMP API key is not configured. Set FMP_API_KEY environment variable."
  else
    match resp with
    | .jsonList f =>
      if f.rows.isEmpty then
        .error ("No historical data found for ticker: " ++ ticker)
      else normalizeFmpFrame ticker f
    | .jsonDict errorMessage historical =>
      match errorMessage with
      | some m => .error ("FMP API error: " ++ m)
      | none =>
        match historical with
        | some f =>
          if f.rows.isEmpty then
            .error ("No historical data found for ticker: " ++ ticker)
          else normalizeFmpFrame ticker f
        | none => .error ("No historical data found for ticker: " ++ ticker)
    | .otherShape => .error ("Unexpected FMP API response format for ticker: " ++ ticker)

/-! ## Helper lemmas -/

/-- Dropping the full length from the end keeps the whole list. -/
theorem takeLast_length {α : Type} (l : List α) : takeLast l.length l = l := by
  simp [takeLast]

/-- `closes` preserves length. -/
theorem length_closes (data : Series) : (closes data).length = data.length := by
  simp [closes]

/-- The code's shrink-the-window conditional is `min 50 (length)`. -/
theorem window_if_eq_min (n w : ℕ) : (if n < w then n else w) = min w n := by
  rcases Nat.lt_or_ge n w with h | h
  · simp [h, Nat.min_eq_right h.le]
  · simp [Nat.not_lt.2 h, Nat.min_eq_left h]

/-- A window of at least two constant closes has sample variance exactly
zero. -/
theorem sampleVar_of_const (xs : List ℚ) (c : ℚ) (h2 : 2 ≤ xs.length)
    (h : ∀ x ∈ xs, x = c) : sampleVar xs = some 0 := by
  have hne : xs ≠ [] := by
    rintro rfl
    simp at h2
  have hl : (xs.length : ℚ) ≠ 0 := by
    exact_mod_cast (List.length_pos.2 hne).ne'
  have hm : mean xs = c := by
    have hs : xs.sum = xs.length • c := List.sum_eq_card_nsmul xs c h
    rw [mean, hs, nsmul_eq_mul]
    field_simp
  have hz : (xs.map fun x => (x - mean xs) ^ 2).sum = 0 := by
    apply List.sum_eq_zero
    intro y hy
    rcases List.mem_map.1 hy with ⟨x, hx, rfl⟩
    rw [hm, h x hx]
    ring
  rw [sampleVar, if_neg (by omega), hz, zero_div]

/-- The sample variance of at most one sample is NaN. -/
theorem sampleVar_short (xs : List ℚ) (h : xs.length ≤ 1) :
    sampleVar xs = none := by
  rw [sampleVar, if_pos h]

/-- Length of the devstep window: `min 50 len` closes. -/
theorem length_takeLast_closes (data : Series) :
    (takeLast (min 50 data.length) (closes data)).length = min 50 data.length := by
  simp only [takeLast, List.length_drop, length_closes]
  omega

/-! ## C2 -/

/-- C2 counterexample: a one-bar series has (trivially) constant closes in
its devstep window, yet its devstep is not `0.0` — pandas' one-sample
standard deviation is NaN, the `std_dev == 0` test is false, and the NaN
propagates through the division. -/
theorem C2_singleton_nan_counterexample :
    (∀ x ∈ takeLast (min 50 ([⟨1, 1, 1, 1, 7⟩] : Series).length)
        (closes [⟨1, 1, 1, 1, 7⟩]), x = 7) ∧
    calculate_devstep [⟨1, 1, 1, 1, 7⟩] 7 = none ∧
    calculate_devstep [⟨1, 1, 1, 1, 7⟩] 7 ≠ some 0 := by
  have h : calculate_devstep [⟨1, 1, 1, 1, 7⟩] 7 = none := rfl
  refine ⟨by decide, h, ?_⟩
  rw [h]
  exact fun hc => Option.noConfusion hc

/-- C2 amended: `calculate_devstep` works on the last `min(50, len)`
closes.  On a window of fewer than two closes the sample standard deviation
is NaN and devstep is NaN; otherwise devstep is `0.0` exactly when that
standard deviation is zero — in particular whenever the (at least two)
window closes are all equal — and `(last_close - sma_50) / std_dev`
otherwise. -/
theorem C2_devstep_characterization (data : Series) (sma_50 : ℚ) :
    (data.length ≤ 1 → calculate_devstep data sma_50 = none) ∧
    (∀ sd, stdDev (takeLast (min 50 data.length) (closes data)) = some sd →
      (sd = 0 → calculate_devstep data sma_50 = some 0) ∧
      (sd ≠ 0 → calculate_devstep data sma_50 =
        some (((lastClose data : ℝ) - (sma_50 : ℝ)) / sd))) ∧
    (2 ≤ data.length →
      ∀ c : ℚ, (∀ x ∈ takeLast (min 50 data.length) (closes data), x = c) →
        calculate_devstep data sma_50 = some 0) := by
  have hw : (if data.length < 50 then data.length else 50) = min 50 data.length :=
    window_if_eq_min data.length 50
  refine ⟨?_, ?_, ?_⟩
  · intro h1
    have hv : sampleVar (takeLast (min 50 data.length) (closes data)) = none := by
      apply sampleVar_short
      rw [length_takeLast_closes]
      omega
    have hsd : stdDev (takeLast (min 50 data.length) (closes data)) = none := by
      rw [stdDev, hv]
      rfl
    simp only [calculate_devstep, hw, hsd]
  · intro sd hsd
    constructor
    · intro h0
      simp only [calculate_devstep, hw, hsd]
      rw [if_pos h0]
    · intro hne
      simp only [calculate_devstep, hw, hsd]
      rw [if_neg hne]
  · intro h2 c hc
    have hv : sampleVar (takeLast (min 50 data.length) (closes data)) = some 0 := by
      apply sampleVar_of_const _ c _ hc
      rw [length_takeLast_closes]
      omega
    have hsd : stdDev (takeLast (min 50 data.length) (closes data)) = some 0 := by
      rw [stdDev, hv]
      simp
    simp only [calculate_devstep, hw, hsd]
    simp

/-- C2 witness: a three-bar series with constant closes at 100 has devstep
exactly 0, and a lone bar exercises the NaN clause. -/
theorem C2_devstep_characterization_witness :
    calculate_devstep [⟨1, 1, 1, 1, 100⟩, ⟨2, 1, 1, 1, 100⟩, ⟨3, 1, 1, 1, 100⟩] 100 =
      some 0 ∧
    calculate_devstep [⟨1, 1, 1, 1, 7⟩] 7 = none :=
  ⟨(C2_devstep_characterization
      [⟨1, 1, 1, 1, 100⟩, ⟨2, 1, 1, 1, 100⟩, ⟨3, 1, 1, 1, 100⟩] 100).2.2
      (by decide) 100 (by decide),
   (C2_devstep_characterization [⟨1, 1, 1, 1, 7⟩] 7).1 (by decide)⟩

/-! ## C3 -/

/-- C3: the five classification bands of `calculate_signal`, with the
boundary values landing as the spec states: `-2` is Oversold, `-1` and `1`
are Neutral, `2` is Overbought. -/
theorem C3_signal_boundaries (d : ℚ) :
    (d < -2 → calculate_signal d = "Extreme Oversold") ∧
    (-2 ≤ d → d < -1 → calculate_signal d = "Oversold") ∧
    (-1 ≤ d → d ≤ 1 → calculate_signal d = "Neutral") ∧
    (1 < d → d ≤ 2 → calculate_signal d = "Overbought") ∧
    (2 < d → calculate_signal d = "Extreme Overbought") := by
  unfold calculate_signal
  refine ⟨?_, ?_, ?_, ?_, ?_⟩ <;> intros <;>
    split_ifs <;> first | rfl | linarith

/-- C3 witness: the spec's boundary cases evaluated concretely. -/
theorem C3_signal_boundaries_witness :
    calculate_signal (-2 : ℚ) = "Oversold" ∧
    calculate_signal (-1 : ℚ) = "Neutral" ∧
    calculate_signal (1 : ℚ) = "Neutral" ∧
    calculate_signal (2 : ℚ) = "Overbought" ∧
    calculate_signal (10001 / 10000 : ℚ) = "Overbought" ∧
    calculate_signal (-20001 / 10000 : ℚ) = "Extreme Oversold" :=
  ⟨(C3_signal_boundaries (-2)).2.1 (by norm_num) (by norm_num),
   (C3_signal_boundaries (-1)).2.2.1 (by norm_num) (by norm_num),
   (C3_signal_boundaries 1).2.2.1 (by norm_num) (by norm_num),
   (C3_signal_boundaries 2).2.2.2.1 (by norm_num) (by norm_num),
   (C3_signal_boundaries (10001 / 10000)).2.2.2.1 (by norm_num) (by norm_num),
   (C3_signal_boundaries (-20001 / 10000)).1 (by norm_num)⟩

/-! ## C4 -/

/-- C4: `calculate_sma` is the mean of the last `w` closes when the series
has at least `w` rows, and the mean of all closes — without failing — when
`w` exceeds the series length. -/
theorem C4_sma_window (data : Series) (w : ℕ) :
    (w ≤ data.length → calculate_sma data w = mean (takeLast w (closes data))) ∧
    (data.length < w → calculate_sma data w = mean (closes data)) := by
  constructor
  · intro h
    simp only [calculate_sma]
    rw [if_neg (Nat.not_lt.2 h)]
  · intro h
    simp only [calculate_sma]
    rw [if_pos h, ← length_closes data, takeLast_length]

/-- C4 witness: both branches on a three-bar series. -/
theorem C4_sma_window_witness :
    calculate_sma [⟨1, 1, 1, 1, 10⟩, ⟨2, 1, 1, 1, 20⟩, ⟨3, 1, 1, 1, 30⟩] 2 =
      mean (takeLast 2 (closes [⟨1, 1, 1, 1, 10⟩, ⟨2, 1, 1, 1, 20⟩, ⟨3, 1, 1, 1, 30⟩])) ∧
    calculate_sma [⟨1, 1, 1, 1, 10⟩, ⟨2, 1, 1, 1, 20⟩, ⟨3, 1, 1, 1, 30⟩] 200 =
      mean (closes [⟨1, 1, 1, 1, 10⟩, ⟨2, 1, 1, 1, 20⟩, ⟨3, 1, 1, 1, 30⟩]) :=
  ⟨(C4_sma_window _ 2).1 (by decide), (C4_sma_window _ 200).2 (by decide)⟩

/-! ## Cache lemmas -/

/-- Looking up a key after erasing it finds nothing. -/
theorem cacheLookup_erase (st : Cache) (key : String) :
    cacheLookup (cacheErase st key) key = none := by
  have h : (cacheErase st key).find? (fun p => p.1 = key) = none := by
    rw [List.find?_eq_none]
    intro p hp
    have := (List.mem_filter.1 hp).2
    simpa using this
  simp [cacheLookup, h]

/-- Looking up the upserted key finds the fresh entry. -/
theorem cacheLookup_set (st : Cache) (ticker : String) (data : Series) (now : ℤ) :
    cacheLookup (set_cached_data st ticker data now) (strUpper ticker) =
      some { data := serializeSeries data, cache_timestamp := now } := by
  simp only [set_cached_data]
  by_cases h : (cacheLookup st (strUpper ticker)).isSome
  · rw [if_pos h]
    induction st with
    | nil => simp [cacheLookup] at h
    | cons p rest ih =>
      by_cases hk : p.1 = strUpper ticker
      · simp [cacheLookup, List.find?, hk]
      · have hrest : (cacheLookup rest (strUpper ticker)).isSome := by
          simpa [cacheLookup, List.find?_cons, hk] using h
        have := ih hrest
        simpa [cacheLookup, List.find?_cons, hk] using this
  · rw [if_neg h]
    induction st with
    | nil => simp [cacheLookup, List.find?]
    | cons p rest ih =>
      by_cases hk : p.1 = strUpper ticker
      · exfalso
        apply h
        simp [cacheLookup, List.find?_cons, hk]
      · have hrest : ¬ (cacheLookup rest (strUpper ticker)).isSome := by
          intro hs
          apply h
          simpa [cacheLookup, List.find?_cons, hk] using hs
        have := ih hrest
        simpa [cacheLookup, List.find?_cons, hk] using this

/-! ## C5 -/

/-- C5: writing a series and reading it back within the expiry window —
under any letter-casing of the ticker — returns the very same series
together with a timestamp no earlier than the write. -/
theorem C5_cache_roundtrip (st : Cache) (T Tq : String) (S : Series) (tw tr : ℤ)
    (hcase : strUpper Tq = strUpper T)
    (hfresh : tr - tw ≤ CACHE_EXPIRY_HOURS) :
    ∃ ts, (get_cached_data (set_cached_data st T S tw) Tq tr).1 = some (S, ts) ∧
      tw ≤ ts := by
  refine ⟨tw, ?_, le_refl tw⟩
  have hl := cacheLookup_set st T S tw
  simp only [get_cached_data, hcase, hl]
  rw [if_neg (not_lt.2 (by linarith))]
  rfl

/-- C5 witness: write under `"aapl"`, read back under `"AAPL"` one hour
later. -/
theorem C5_cache_roundtrip_witness :
    ∃ ts, (get_cached_data
        (set_cached_data [] "aapl" [⟨1, 2, 3, 1, 2⟩] 0) "AAPL" 1).1 =
      some ([⟨1, 2, 3, 1, 2⟩], ts) ∧ (0 : ℤ) ≤ ts :=
  C5_cache_roundtrip [] "aapl" "AAPL" [⟨1, 2, 3, 1, 2⟩] 0 1 (by decide) (by decide)

/-! ## C6 -/

/-- C6: a cache read that finds an entry which is expired (older than the
24-hour window) or whose payload fails to deserialize deletes that entry
and reports a miss; `get_cached_data` is total, so neither case surfaces an
error. -/
theorem C6_expiry_corruption_degrade (st : Cache) (t : String) (now : ℤ)
    (e : CacheEntry) (hfind : cacheLookup st (strUpper t) = some e)
    (hbad : now - e.cache_timestamp > CACHE_EXPIRY_HOURS ∨
      deserializePayload e.data = none) :
    (get_cached_data st t now).1 = none ∧
    (get_cached_data st t now).2 = cacheErase st (strUpper t) ∧
    cacheLookup (get_cached_data st t now).2 (strUpper t) = none := by
  by_cases hexp : now - e.cache_timestamp > CACHE_EXPIRY_HOURS
  · simp only [get_cached_data, hfind]
    rw [if_pos hexp]
    exact ⟨rfl, rfl, cacheLookup_erase st (strUpper t)⟩
  · have hcor : deserializePayload e.data = none := hbad.resolve_left hexp
    simp only [get_cached_data, hfind]
    rw [if_neg hexp, hcor]
    exact ⟨rfl, rfl, cacheLookup_erase st (strUpper t)⟩

/-- C6 witness: an expired well-formed entry and a fresh corrupt entry both
degrade to a miss with the row deleted. -/
theorem C6_expiry_corruption_degrade_witness :
    ((get_cached_data [("AAPL", ⟨serializeSeries [⟨1, 1, 1, 1, 5⟩], 0⟩)] "AAPL" 25).1 = none ∧
      (get_cached_data [("AAPL", ⟨serializeSeries [⟨1, 1, 1, 1, 5⟩], 0⟩)] "AAPL" 25).2 =
        cacheErase [("AAPL", ⟨serializeSeries [⟨1, 1, 1, 1, 5⟩], 0⟩)] "AAPL" ∧
      cacheLookup (get_cached_data
        [("AAPL", ⟨serializeSeries [⟨1, 1, 1, 1, 5⟩], 0⟩)] "AAPL" 25).2 "AAPL" = none) ∧
    ((get_cached_data [("MSFT", ⟨CachePayload.corrupt, 0⟩)] "msft" 1).1 = none ∧
      (get_cached_data [("MSFT", ⟨CachePayload.corrupt, 0⟩)] "msft" 1).2 =
        cacheErase [("MSFT", ⟨CachePayload.corrupt, 0⟩)] "MSFT" ∧
      cacheLookup (get_cached_data
        [("MSFT", ⟨CachePayload.corrupt, 0⟩)] "msft" 1).2 "MSFT" = none) := by
  constructor
  · have h := C6_expiry_corruption_degrade
      [("AAPL", ⟨serializeSeries [⟨1, 1, 1, 1, 5⟩], 0⟩)] "AAPL" 25
      ⟨serializeSeries [⟨1, 1, 1, 1, 5⟩], 0⟩ (by decide) (Or.inl (by decide))
    simpa using h
  · have h := C6_expiry_corruption_degrade
      [("MSFT", ⟨CachePayload.corrupt, 0⟩)] "msft" 1
      ⟨CachePayload.corrupt, 0⟩ (by decide) (Or.inr (by decide))
    simpa using h

/-! ## C1

The orchestrators (`get_stock_metrics`, stock_service.py:126-139, and
`get_fmp_stock_metrics`, fmp_service.py:190-211) contain no second cache
read: on a cache miss a fetch failure is raised unconditionally
(fmp_service.py:208-211).  The claimed fallback — "if any cache entry
exists for the ticker, even a stale one, use it" — is stated below over the
store the request runs against and then refuted: a stale entry present
before the call does not prevent the error (the miss deletes it). -/

/-- The literal claim C1: whenever the cache read misses and the fetch
fails, the orchestrator re-checks the cache — any entry for the ticker in
the store the request ran against (fresh, boundary or stale alike) yields a
`cached` metrics result, and the fetch failure is propagated only when no
entry exists at all. -/
def fetchFailureFallbackClaim : Prop :=
  ∀ (st : Cache) (ticker : String) (now : ℤ) (fetchErr : String),
    (get_cached_data st ticker now).1 = none →
    (((cacheLookup st (strUpper ticker)).isSome = true →
        ∃ m, (get_fmp_stock_metrics (.error fetchErr) st ticker now).1 = .ok m ∧
          m.cached = true) ∧
     ((cacheLookup st (strUpper ticker)).isSome = false →
        ∃ e, (get_fmp_stock_metrics (.error fetchErr) st ticker now).1 = .error e))

/-- C1 counterexample: a cache holding a 25-hour-old (expired, hence
read-missing) entry for `AAPL` together with a failing fetch.  The claim
demands a `cached` metrics result; the code propagates the fetch error. -/
theorem C1_fallback_counterexample : ¬ fetchFailureFallbackClaim := by
  intro h
  obtain ⟨m, hm, -⟩ :=
    (h [("AAPL", ⟨serializeSeries [⟨1, 1, 1, 1, 5⟩], 0⟩)] "AAPL" 25 "boom"
      (by decide)).1 (by decide)
  rw [show (get_fmp_stock_metrics (.error "boom")
      [("AAPL", ⟨serializeSeries [⟨1, 1, 1, 1, 5⟩], 0⟩)] "AAPL" 25).1 =
      .error "Failed to fetch data and no cache available: boom" from rfl] at hm
  exact Except.noConfusion hm

/-- C1 amended: on a cache miss a fetch failure is always propagated as the
terminal error for the ticker — the orchestrator performs no second cache
read.  (Consistently with that, after the missing read no entry for the
ticker remains in the store: a hit would not have reached the fetch, and a
stale or corrupt entry was deleted by the read itself.) -/
theorem C1_fetch_failure_propagates (st : Cache) (ticker : String) (now : ℤ)
    (fetchErr : String)
    (hmiss : (get_cached_data st ticker now).1 = none) :
    (get_fmp_stock_metrics (.error fetchErr) st ticker now).1 =
      .error ("Failed to fetch data and no cache available: " ++ fetchErr) ∧
    cacheLookup (get_cached_data st ticker now).2 (strUpper ticker) = none := by
  constructor
  · simp only [get_fmp_stock_metrics]
    rcases hres : get_cached_data st ticker now with ⟨r, st1⟩
    rw [hres] at hmiss
    dsimp only at hmiss
    subst hmiss
    rfl
  · rcases hl : cacheLookup st (strUpper ticker) with - | entry
    · have hr : get_cached_data st ticker now = (none, st) := by
        simp only [get_cached_data, hl]
      rw [hr]
      exact hl
    · by_cases hexp : now - entry.cache_timestamp > CACHE_EXPIRY_HOURS
      · have hr : get_cached_data st ticker now =
            (none, cacheErase st (strUpper ticker)) := by
          simp only [get_cached_data, hl]
          rw [if_pos hexp]
        rw [hr]
        exact cacheLookup_erase st (strUpper ticker)
      · rcases hd : deserializePayload entry.data with - | s
        · have hr : get_cached_data st ticker now =
              (none, cacheErase st (strUpper ticker)) := by
            simp only [get_cached_data, hl, hd]
            rw [if_neg hexp]
          rw [hr]
          exact cacheLookup_erase st (strUpper ticker)
        · exfalso
          have hr : get_cached_data st ticker now =
              (some (s, entry.cache_timestamp), st) := by
            simp only [get_cached_data, hl, hd]
            rw [if_neg hexp]
          rw [hr] at hmiss
          exact Option.noConfusion hmiss

/-- C1 amended witness: an empty cache with a failing fetch. -/
theorem C1_fetch_failure_propagates_witness :
    (get_fmp_stock_metrics (.error "boom") [] "AAPL" 0).1 =
      .error "Failed to fetch data and no cache available: boom" ∧
    cacheLookup (get_cached_data ([] : Cache) "AAPL" 0).2 (strUpper "AAPL") = none := by
  have h := C1_fetch_failure_propagates [] "AAPL" 0 "boom" (by decide)
  simpa using h

/-! ## Batch lemmas (C7, C10) -/

/-- What the batch loop appends for one processed (non-blank) input ticker:
an error entry carrying the stripped-uppercased ticker, or a metrics entry
whose `ticker` field is its further-uppercased form
(fmp_service.py:256-269 with fmp_service.py:227). -/
def batchEntryMatches (r : BatchResult) (t : String) : Prop :=
  (∃ e, r = .errorEntry (strUpper (strTrim t)) e) ∨
  (∃ m, r = .metrics m ∧ m.ticker = strUpper (strUpper (strTrim t)))

/-- A successful single-ticker result reports the uppercased request
ticker. -/
theorem get_fmp_stock_metrics_ok_ticker (fr : Except String Series)
    (st : Cache) (t : String) (now : ℤ) (m : StockMetrics) (st1 : Cache)
    (h : get_fmp_stock_metrics fr st t now = (.ok m, st1)) :
    m.ticker = strUpper t := by
  unfold get_fmp_stock_metrics at h
  rcases hc : get_cached_data st t now with ⟨r, st2⟩
  rw [hc] at h
  rcases r with - | ⟨data, ts⟩
  · rcases fr with e | data
    · exact absurd (congrArg Prod.fst h) (by simp)
    · have hm : Except.ok (α := StockMetrics) (computeMetrics t data false none) =
          .ok m := congrArg Prod.fst h
      have hm2 : computeMetrics t data false none = m := by
        injection hm
      rw [← hm2]
      rfl
  · have hm : Except.ok (α := StockMetrics) (computeMetrics t data true (some ts)) =
        .ok m := congrArg Prod.fst h
    have hm2 : computeMetrics t data true (some ts) = m := by
      injection hm
    rw [← hm2]
    rfl

/-- The batch loop produces exactly one entry per non-blank input ticker,
in input order, each of the shape `batchEntryMatches` describes — so a
failing ticker yields its error entry while every other ticker is still
processed. -/
theorem batch_entries (fetch : String → Except String Series) (now : ℤ) :
    ∀ (tickers : List String) (st : Cache),
      List.Forall₂ batchEntryMatches
        (get_fmp_multiple_stock_metrics fetch st tickers now).1
        (tickers.filter (fun t => strUpper (strTrim t) ≠ "")) := by
  intro tickers
  induction tickers with
  | nil =>
    intro st
    simp only [get_fmp_multiple_stock_metrics, List.filter_nil]
    exact List.Forall₂.nil
  | cons t ts ih =>
    intro st
    by_cases hb : strUpper (strTrim t) = ""
    · have h1 : get_fmp_multiple_stock_metrics fetch st (t :: ts) now =
          get_fmp_multiple_stock_metrics fetch st ts now := by
        simp only [get_fmp_multiple_stock_metrics]
        rw [if_pos hb]
      have h2 : (t :: ts).filter (fun t => strUpper (strTrim t) ≠ "") =
          ts.filter (fun t => strUpper (strTrim t) ≠ "") := by
        simp [List.filter_cons, hb]
      rw [h1, h2]
      exact ih st
    · rcases hg : get_fmp_stock_metrics (fetch (strUpper (strTrim t))) st
        (strUpper (strTrim t)) now with ⟨res, st1⟩
      have hfil : (t :: ts).filter (fun t => strUpper (strTrim t) ≠ "") =
          t :: ts.filter (fun t => strUpper (strTrim t) ≠ "") := by
        simp [List.filter_cons, hb]
      rcases res with e | m
      · have h1 : (get_fmp_multiple_stock_metrics fetch st (t :: ts) now).1 =
            .errorEntry (strUpper (strTrim t)) e ::
              (get_fmp_multiple_stock_metrics fetch st1 ts now).1 := by
          simp only [get_fmp_multiple_stock_metrics]
          rw [if_neg hb, hg]
        rw [h1, hfil]
        exact List.Forall₂.cons (Or.inl ⟨e, rfl⟩) (ih st1)
      · have h1 : (get_fmp_multiple_stock_metrics fetch st (t :: ts) now).1 =
            .metrics m :: (get_fmp_multiple_stock_metrics fetch st1 ts now).1 := by
          simp only [get_fmp_multiple_stock_metrics]
          rw [if_neg hb, hg]
        rw [h1, hfil]
        exact List.Forall₂.cons
          (Or.inr ⟨m, rfl, get_fmp_stock_metrics_ok_ticker _ _ _ _ _ _ hg⟩) (ih st1)

/-! ## C7 -/

/-- C7 counterexample to the literal claim: a two-element ticker list in
which one entry is blank yields one result, not two — so the batch does not
return one result per input ticker. -/
theorem C7_one_result_per_ticker_counterexample :
    ¬ ((get_fmp_multiple_stock_metrics (fun _ => .ok [⟨1, 1, 1, 1, 100⟩])
          [] ["AAPL", "   "] 0).1.length =
        (["AAPL", "   "] : List String).length) := by
  intro h
  rw [show (get_fmp_multiple_stock_metrics (fun _ => .ok [⟨1, 1, 1, 1, 100⟩])
      [] ["AAPL", "   "] 0).1.length = 1 from rfl] at h
  exact absurd h (by decide)

/-- C7 amended: the batch runs the single-ticker flow once per non-blank
input ticker (blank entries are skipped), returning exactly one entry per
such ticker in input order; a ticker whose processing fails contributes a
`{ticker, error}` entry while every sibling is still processed. -/
theorem C7_batch_isolation (fetch : String → Except String Series) (st : Cache)
    (tickers : List String) (now : ℤ) :
    (get_fmp_multiple_stock_metrics fetch st tickers now).1.length =
      (tickers.filter (fun t => strUpper (strTrim t) ≠ "")).length ∧
    List.Forall₂ batchEntryMatches
      (get_fmp_multiple_stock_metrics fetch st tickers now).1
      (tickers.filter (fun t => strUpper (strTrim t) ≠ "")) :=
  ⟨(batch_entries fetch now tickers st).length_eq, batch_entries fetch now tickers st⟩

/-! ## C10 -/

/-- C10: a blank (empty after stripping) input ticker contributes no entry
at all, so the batch result's length is the count of non-blank input
tickers, not the input length. -/
theorem C10_blank_tickers_skipped (fetch : String → Except String Series)
    (st : Cache) (tickers : List String) (now : ℤ) :
    (get_fmp_multiple_stock_metrics fetch st tickers now).1.length =
      tickers.countP (fun t => strUpper (strTrim t) ≠ "") := by
  rw [(batch_entries fetch now tickers st).length_eq]
  rw [List.countP_eq_length_filter]

/-! ## Sortedness of the normalization (C8) -/

/-- Membership through `insertByDate`. -/
theorem mem_insertByDate (b y : Bar) (l : List Bar) :
    y ∈ insertByDate b l ↔ y = b ∨ y ∈ l := by
  induction l with
  | nil => simp [insertByDate]
  | cons x xs ih =>
    rw [insertByDate]
    split_ifs
    all_goals simp only [List.mem_cons, ih]
    all_goals tauto

/-- `insertByDate` preserves date-sortedness. -/
theorem insertByDate_sorted (b : Bar) (l : List Bar)
    (h : List.Sorted (fun a c : Bar => a.date ≤ c.date) l) :
    List.Sorted (fun a c : Bar => a.date ≤ c.date) (insertByDate b l) := by
  induction l with
  | nil => simp [insertByDate]
  | cons x xs ih =>
    rw [List.sorted_cons] at h
    obtain ⟨hx, hxs⟩ := h
    rw [insertByDate]
    split_ifs with hcmp
    · rw [List.sorted_cons]
      refine ⟨?_, ih hxs⟩
      intro y hy
      rcases (mem_insertByDate b y xs).1 hy with rfl | hy2
      · exact hcmp.le
      · exact hx y hy2
    · rw [List.sorted_cons]
      refine ⟨?_, List.sorted_cons.2 ⟨hx, hxs⟩⟩
      intro y hy
      rcases List.mem_cons.1 hy with rfl | hy2
      · exact not_lt.1 hcmp
      · exact le_trans (not_lt.1 hcmp) (hx y hy2)

/-- `sortByDate` sorts ascending by date. -/
theorem sortByDate_sorted (l : List Bar) :
    List.Sorted (fun a c : Bar => a.date ≤ c.date) (sortByDate l) := by
  induction l with
  | nil => simp [sortByDate]
  | cons b rest ih => exact insertByDate_sorted b (sortByDate rest) ih

/-- The normalization tail only succeeds with a `Close` column and at least
one row, and its output is date-sorted whenever a date index column
exists. -/
theorem normalizeFmpFrame_ok (t : String) (g f : RawFrame)
    (h : normalizeFmpFrame t g = .ok f) :
    "Close" ∈ f.columns ∧ f.rows ≠ [] ∧
    (hasDateIndexColumn f.columns = true →
      List.Sorted (fun a c : Bar => a.date ≤ c.date) f.rows) := by
  rcases f with ⟨fc, fr⟩
  simp only [normalizeFmpFrame] at h
  cases h1 : (g.columns.map renameColumn).contains "Close" with
  | false =>
    rw [if_pos (by rw [h1]; exact Bool.false_ne_true)] at h
    exact Except.noConfusion h
  | true =>
    rw [if_neg (by rw [h1]; exact not_not_intro rfl)] at h
    cases hd : hasDateIndexColumn (g.columns.map renameColumn) with
    | true =>
      rw [if_pos hd] at h
      cases he : (sortByDate g.rows).isEmpty with
      | true =>
        rw [if_pos he] at h
        exact Except.noConfusion h
      | false =>
        rw [if_neg (by rw [he]; exact Bool.false_ne_true)] at h
        have h2 := Except.ok.inj h
        cases h2
        refine ⟨List.mem_of_elem_eq_true h1, ?_, fun _ => sortByDate_sorted g.rows⟩
        intro hnil
        have hnil2 : sortByDate g.rows = [] := hnil
        rw [hnil2] at he
        simp at he
    | false =>
      have hrows : (if hasDateIndexColumn (g.columns.map renameColumn) = true
          then sortByDate g.rows else g.rows) = g.rows :=
        if_neg (by rw [hd]; exact Bool.false_ne_true)
      rw [hrows] at h
      cases he : g.rows.isEmpty with
      | true =>
        rw [if_pos he] at h
        exact Except.noConfusion h
      | false =>
        rw [if_neg (by rw [he]; exact Bool.false_ne_true)] at h
        have h2 := Except.ok.inj h
        cases h2
        refine ⟨List.mem_of_elem_eq_true h1, ?_, fun hcol => ?_⟩
        · intro hnil
          have hnil2 : g.rows = [] := hnil
          rw [hnil2] at he
          simp at he
        · rw [hcol] at hd
          exact Bool.noConfusion hd

/-! ## C8 -/

/-- C8: whenever `fetch_fmp_stock_data` succeeds, the returned frame has a
`Close` column and at least one row — equivalently, a normalized result
lacking a close-price field or containing zero rows always fails — and its
rows are sorted ascending by date (whenever a date index exists at all),
regardless of the upstream order. -/
theorem C8_fetch_normalization (cfg : Bool) (resp : FmpResponse) (t : String)
    (f : RawFrame) (hok : fetch_fmp_stock_data cfg resp t = .ok f) :
    "Close" ∈ f.columns ∧ f.rows ≠ [] ∧
    (hasDateIndexColumn f.columns = true →
      List.Sorted (fun a c : Bar => a.date ≤ c.date) f.rows) := by
  cases cfg with
  | false =>
    exact Except.noConfusion (show (Except.error
      "FMP API key is not configured. Set FMP_API_KEY environment variable." :
        Except String RawFrame) = .ok f from hok)
  | true =>
    rcases resp with g | ⟨em, hist⟩ | -
    · have hok2 : (if g.rows.isEmpty = true
          then Except.error ("No historical data found for ticker: " ++ t)
          else normalizeFmpFrame t g) = .ok f := hok
      cases hge : g.rows.isEmpty with
      | true =>
        rw [if_pos hge] at hok2
        exact Except.noConfusion hok2
      | false =>
        rw [if_neg (by rw [hge]; exact Bool.false_ne_true)] at hok2
        exact normalizeFmpFrame_ok t g f hok2
    · rcases em with - | m
      · rcases hist with - | g
        · exact Except.noConfusion (show (Except.error
            ("No historical data found for ticker: " ++ t) :
              Except String RawFrame) = .ok f from hok)
        · have hok2 : (if g.rows.isEmpty = true
              then Except.error ("No historical data found for ticker: " ++ t)
              else normalizeFmpFrame t g) = .ok f := hok
          cases hge : g.rows.isEmpty with
          | true =>
            rw [if_pos hge] at hok2
            exact Except.noConfusion hok2
          | false =>
            rw [if_neg (by rw [hge]; exact Bool.false_ne_true)] at hok2
            exact normalizeFmpFrame_ok t g f hok2
      · exact Except.noConfusion (show (Except.error ("FMP API error: " ++ m) :
          Except String RawFrame) = .ok f from hok)
    · exact Except.noConfusion (show (Except.error
        ("Unexpected FMP API response format for ticker: " ++ t) :
          Except String RawFrame) = .ok f from hok)

/-- C8 witness: an upstream list response delivered date-descending with
lowercase column names normalizes to an ascending, `Close`-carrying
frame. -/
theorem C8_fetch_normalization_witness :
    "Close" ∈ (RawFrame.mk ["Date", "Close"]
        [⟨1, 1, 1, 1, 6⟩, ⟨3, 1, 1, 1, 5⟩]).columns ∧
    (RawFrame.mk ["Date", "Close"] [⟨1, 1, 1, 1, 6⟩, ⟨3, 1, 1, 1, 5⟩]).rows ≠ [] ∧
    (hasDateIndexColumn (RawFrame.mk ["Date", "Close"]
        [⟨1, 1, 1, 1, 6⟩, ⟨3, 1, 1, 1, 5⟩]).columns = true →
      List.Sorted (fun a c : Bar => a.date ≤ c.date)
        (RawFrame.mk ["Date", "Close"] [⟨1, 1, 1, 1, 6⟩, ⟨3, 1, 1, 1, 5⟩]).rows) :=
  C8_fetch_normalization true
    (.jsonList ⟨["date", "close"], [⟨3, 1, 1, 1, 5⟩, ⟨1, 1, 1, 1, 6⟩]⟩) "AAPL"
    (RawFrame.mk ["Date", "Close"] [⟨1, 1, 1, 1, 6⟩, ⟨3, 1, 1, 1, 5⟩]) rfl

/-! ## Portfolio lemmas (C9) -/

/-- A membership row exists in an appended table iff it exists in one of the
parts. -/
theorem hasStock_append (a b : List PortfolioStockRec) (pid : ℕ) (t : String) :
    hasStock (a ++ b) pid t = (hasStock a pid t || hasStock b pid t) := by
  simp [hasStock, List.any_append]

/-- Unfolding of `addStocksLoop` on an empty request list. -/
theorem addStocksLoop_nil (pid : ℕ) (now : ℤ) (stocks : List PortfolioStockRec) :
    addStocksLoop pid now stocks [] = (stocks, []) := rfl

/-- Unfolding of `addStocksLoop` on a nonempty request list. -/
theorem addStocksLoop_cons (pid : ℕ) (now : ℤ) (stocks : List PortfolioStockRec)
    (t : String) (ts : List String) :
    addStocksLoop pid now stocks (t :: ts) =
      if hasStock stocks pid (strUpper t) then addStocksLoop pid now stocks ts
      else
        ((addStocksLoop pid now (stocks ++
            [{ portfolio_id := pid, ticker := strUpper t, date_added := now }]) ts).1,
          { portfolio_id := pid, ticker := strUpper t, date_added := now } ::
            (addStocksLoop pid now (stocks ++
              [{ portfolio_id := pid, ticker := strUpper t, date_added := now }]) ts).2) :=
  rfl

/-- The insertion loop only ever appends: its final table is the initial
table followed by exactly the rows it reports as added. -/
theorem addStocksLoop_stocks (pid : ℕ) (now : ℤ) (ts : List String) :
    ∀ stocks, (addStocksLoop pid now stocks ts).1 =
      stocks ++ (addStocksLoop pid now stocks ts).2 := by
  induction ts with
  | nil => intro stocks; simp [addStocksLoop_nil]
  | cons t ts ih =>
    intro stocks
    rw [addStocksLoop_cons]
    by_cases hs : hasStock stocks pid (strUpper t) = true
    · rw [if_pos hs]
      exact ih stocks
    · rw [if_neg hs]
      have := ih (stocks ++
        [{ portfolio_id := pid, ticker := strUpper t, date_added := now }])
      simp only [this]
      simp

/-- Every row the loop adds belongs to the portfolio, is stamped `now`,
uppercases some requested ticker, and was not present in the initial
table. -/
theorem addStocksLoop_added (pid : ℕ) (now : ℤ) (ts : List String) :
    ∀ stocks m, m ∈ (addStocksLoop pid now stocks ts).2 →
      m.portfolio_id = pid ∧ m.date_added = now ∧
      (∃ t ∈ ts, m.ticker = strUpper t) ∧
      hasStock stocks pid m.ticker = false := by
  induction ts with
  | nil => intro stocks m hm; simp [addStocksLoop_nil] at hm
  | cons t ts ih =>
    intro stocks m hm
    rw [addStocksLoop_cons] at hm
    by_cases hs : hasStock stocks pid (strUpper t) = true
    · rw [if_pos hs] at hm
      obtain ⟨h1, h2, ⟨t2, ht2, h3⟩, h4⟩ := ih stocks m hm
      exact ⟨h1, h2, ⟨t2, List.mem_cons_of_mem t ht2, h3⟩, h4⟩
    · rw [if_neg hs] at hm
      rcases List.mem_cons.1 hm with rfl | hm2
      · exact ⟨rfl, rfl, ⟨t, List.mem_cons_self t ts, rfl⟩,
          Bool.eq_false_iff.2 hs⟩
      · obtain ⟨h1, h2, ⟨t2, ht2, h3⟩, h4⟩ := ih (stocks ++
          [{ portfolio_id := pid, ticker := strUpper t, date_added := now }]) m hm2
        refine ⟨h1, h2, ⟨t2, List.mem_cons_of_mem t ht2, h3⟩, ?_⟩
        rw [hasStock_append] at h4
        exact (Bool.or_eq_false_iff.1 h4).1

/-- After the loop, every requested ticker has a membership row. -/
theorem addStocksLoop_mem (pid : ℕ) (now : ℤ) (ts : List String) :
    ∀ stocks t, t ∈ ts →
      hasStock (addStocksLoop pid now stocks ts).1 pid (strUpper t) = true := by
  induction ts with
  | nil => intro stocks t ht; simp at ht
  | cons u ts ih =>
    intro stocks t ht
    rw [addStocksLoop_cons]
    by_cases hs : hasStock stocks pid (strUpper u) = true
    · rw [if_pos hs]
      rcases List.mem_cons.1 ht with rfl | ht2
      · rw [addStocksLoop_stocks, hasStock_append, hs]
        simp
      · exact ih stocks t ht2
    · rw [if_neg hs]
      rcases List.mem_cons.1 ht with rfl | ht2
      · rw [addStocksLoop_stocks, hasStock_append, hasStock_append]
        have hm : hasStock
            [{ portfolio_id := pid, ticker := strUpper t, date_added := now }]
            pid (strUpper t) = true := by
          simp [hasStock]
        rw [hm]
        simp
      · exact ih _ t ht2

/-! ## C9 -/

/-- C9: with the portfolio present, a single invalid ticker makes
`add_stocks_to_portfolio` raise and leaves the database — including the
memberships of the valid tickers — completely unchanged; when every ticker
is valid it returns exactly the newly inserted membership rows, appended to
the table, with already-present tickers silently skipped and every valid
ticker present afterwards. -/
theorem C9_add_stocks_atomic_validation (st : DbState) (pid : ℕ)
    (tickers : List String) (now : ℤ) (hp : portfolioExists st pid = true) :
    ((validate_ticker_list tickers).2 ≠ [] →
      ∃ msg, add_stocks_to_portfolio st pid tickers now = (.error msg, st)) ∧
    ((validate_ticker_list tickers).2 = [] →
      ∃ added, (add_stocks_to_portfolio st pid tickers now).1 = .ok added ∧
        (add_stocks_to_portfolio st pid tickers now).2.portfolio_stocks =
          st.portfolio_stocks ++ added ∧
        (∀ m ∈ added, m.portfolio_id = pid ∧
          hasStock st.portfolio_stocks pid m.ticker = false ∧
          ∃ t ∈ (validate_ticker_list tickers).1, m.ticker = strUpper t) ∧
        (∀ t ∈ (validate_ticker_list tickers).1,
          hasStock (add_stocks_to_portfolio st pid tickers now).2.portfolio_stocks
            pid (strUpper t) = true)) := by
  have hp2 : ¬ ¬ portfolioExists st pid = true := not_not_intro hp
  constructor
  · intro hinv
    refine ⟨"Invalid ticker format(s): " ++
      String.intercalate ", " (validate_ticker_list tickers).2, ?_⟩
    simp only [add_stocks_to_portfolio]
    rw [if_neg hp2, if_pos hinv]
  · intro hval
    simp only [add_stocks_to_portfolio]
    rw [if_neg hp2, if_neg (not_not_intro hval)]
    by_cases hv1 : (validate_ticker_list tickers).1 = []
    · rw [if_pos hv1]
      refine ⟨[], rfl, by simp, by simp, ?_⟩
      intro t ht
      rw [hv1] at ht
      simp at ht
    · rw [if_neg hv1]
      refine ⟨(addStocksLoop pid now st.portfolio_stocks
        (validate_ticker_list tickers).1).2, rfl, ?_, ?_, ?_⟩
      · exact addStocksLoop_stocks pid now (validate_ticker_list tickers).1
          st.portfolio_stocks
      · intro m hm
        obtain ⟨h1, h2, h3, h4⟩ := addStocksLoop_added pid now
          (validate_ticker_list tickers).1 st.portfolio_stocks m hm
        exact ⟨h1, h4, h3⟩
      · intro t ht
        exact addStocksLoop_mem pid now (validate_ticker_list tickers).1
          st.portfolio_stocks t ht

/-- C9 witness: on a one-portfolio database, `["BAD!!", "aapl"]` raises and
changes nothing, while `["aapl"]` inserts exactly one membership row. -/
theorem C9_add_stocks_atomic_validation_witness :
    (∃ msg, add_stocks_to_portfolio
        ⟨[⟨1, "My Port", 0, 0⟩], []⟩ 1 ["BAD!!", "aapl"] 0 =
      (.error msg, ⟨[⟨1, "My Port", 0, 0⟩], []⟩)) ∧
    (∃ added, (add_stocks_to_portfolio
        ⟨[⟨1, "My Port", 0, 0⟩], []⟩ 1 ["aapl"] 0).1 = .ok added ∧
      (add_stocks_to_portfolio
        ⟨[⟨1, "My Port", 0, 0⟩], []⟩ 1 ["aapl"] 0).2.portfolio_stocks =
        ([] : List PortfolioStockRec) ++ added) := by
  constructor
  · exact (C9_add_stocks_atomic_validation ⟨[⟨1, "My Port", 0, 0⟩], []⟩ 1
      ["BAD!!", "aapl"] 0 (by decide)).1 (by decide)
  · obtain ⟨added, h1, h2, -⟩ := (C9_add_stocks_atomic_validation
      ⟨[⟨1, "My Port", 0, 0⟩], []⟩ 1 ["aapl"] 0 (by decide)).2 (by decide)
    exact ⟨added, h1, h2⟩

end Arthos
